import Mathlib

/-!
Verification development for the gpk resolution-and-installation core
(lib/gpk.js): the specifier expander `expandSrc`, the tag matcher
`matchTag`, and the recursive install orchestrator `install`.

The JavaScript code is shallowly embedded: JS strings are Lean `String`s
(the tags and paths involved are ASCII, where JS UTF-16 code-unit order
and Lean's code-point order coincide); JS `undefined`/`null` are `Option`;
thrown exceptions are `Except` with an explicit error type (`typeError`
models a genuine JS `TypeError`, e.g. reading a property of `undefined`);
the external collaborators (git transport, filesystem reads, the semver
range predicate) are an explicit environment record `Env`, and the calls
made to the git collaborators are recorded in an event trace so that
"no network call happened" is a statement about the trace.
-/

namespace Gpk

/- ===================== JS string primitives ===================== -/

/-- Lexicographic strict order on character lists: the order JS `<`
imposes on (ASCII) strings, used by the sort comparator in `matchTag`. -/
def lexLt : List Char → List Char → Bool
  | _, [] => false
  | [], _ :: _ => true
  | a :: as, b :: bs =>
    if a < b then true
    else if b < a then false
    else lexLt as bs

/-- JS string `<` (strict, whole-string lexicographic). -/
def jsLt (a b : String) : Bool :=
  lexLt a.toList b.toList

/-- Replace the first occurrence of `pat` in the list by `repl`
(JS `String.prototype.replace` with a string pattern). -/
def replaceFirstAux (pat repl : List Char) : List Char → List Char
  | [] => []
  | c :: cs =>
    if pat.isPrefixOf (c :: cs) then repl ++ (c :: cs).drop pat.length
    else c :: replaceFirstAux pat repl cs

/-- JS `s.replace(pat, repl)` for string patterns: first occurrence only. -/
def jsReplaceFirst (s pat repl : String) : String :=
  ⟨replaceFirstAux pat.toList repl.toList s.toList⟩

/-- JS `s.indexOf(pat) === 0`, i.e. `pat` is a prefix of `s`. -/
def jsStartsWith (s pat : String) : Bool :=
  pat.toList.isPrefixOf s.toList

/-- Split a character list at every occurrence of `c`
(JS `String.prototype.split` with a one-character separator);
the result is never empty. -/
def splitCh (c : Char) : List Char → List (List Char)
  | [] => [[]]
  | a :: as =>
    match splitCh c as with
    | [] => [[]]
    | s :: ss => if a = c then [] :: s :: ss else (a :: s) :: ss

/-- Break a character list at the first occurrence of `c`: the part
before it and, when `c` occurs, everything after it (the behaviour of
JS `src.split(/\x3a(.*)/, 2)` for `c = ':'`: the capture group keeps
the whole remainder). -/
def breakCh (c : Char) : List Char → List Char × Option (List Char)
  | [] => ([], none)
  | a :: as =>
    if a = c then ([], some as)
    else
      let p := breakCh c as
      (a :: p.1, p.2)

/-- Destructuring `let [x, y] = s.split('#')`: the part before the first
`#` and, when present, the segment between the first and second `#`. -/
def jsSplitHash (s : String) : String × Option String :=
  match splitCh '#' s.toList with
  | [] => (s, none)
  | a :: rest => (⟨a⟩, rest.head?.map (fun l => (⟨l⟩ : String)))

/-- Characters a JS regex `.` (without the `s` flag) does not match. -/
def isLineTerm (c : Char) : Bool :=
  c = '\n' || c = '\r' || c = Char.ofNat 0x2028 || c = Char.ofNat 0x2029

/-- Destructuring `const [remote, id] = src.split(/\x3a(.*)/, 2)`:
the part before the first colon and the capture of `(.*)` after it —
which stops at a line terminator, since `.` does not match one — or
`none` (JS `undefined`) when the string has no colon. -/
def breakColon (s : String) : String × Option String :=
  let p := breakCh ':' s.toList
  (⟨p.1⟩, p.2.map (fun l => (⟨l.takeWhile (fun c => !isLineTerm c)⟩ : String)))

/- ===================== Data model ===================== -/

/-- Value of one entry of a manifest's `remotes` table as JS sees it:
an ordered list of host templates, or some other JS value (for which
only truthiness matters to the code: `!hosts` / `Array.isArray`). -/
inductive RemoteVal where
  | arr (hosts : List String)
  | other (truthy : Bool)
deriving DecidableEq, Repr

/-- Association-list read, the model of JS object property access
(`obj[key]`, `undefined` when absent; manifest objects have unique keys). -/
def assocGet {α : Type} : List (String × α) → String → Option α
  | [], _ => none
  | (k, v) :: rest, key => if k = key then some v else assocGet rest key

/-- Resolved specifier returned by `expandSrc`: candidate git URLs, an
optional version range and an optional branch. -/
structure Expanded where
  git : List String
  version : Option String
  branch : Option String
deriving DecidableEq, Repr

/-- Errors of the embedded core. `typeError` stands for a genuine JS
`TypeError` (property access on `undefined`); the string-carrying cases
mirror the `new Error(...)` messages of the source; `noFuel` is the
model's marker for exhausted recursion fuel (the JS recursion has no
such bound; every claim is settled at sufficient fuel). -/
inductive GpkError where
  | typeError
  | unknownRemote (remote : String)
  | invalidRemotes
  | unknownPackage
  | unknownRemotes (name : String)
  | verificationError (dst msg : String)
  | noFuel
deriving DecidableEq, Repr

/- ===================== Specifier expander ===================== -/

/-- Embedding of the inner `findVersion(branch)` of `expandSrc`:
from the optional `#fragment` compute the `(branch, version)` pair.
A fragment containing `semver:` has it stripped and becomes the version;
a nonempty fragment without it is the branch; an absent or empty
fragment yields neither (in the source: `version` stays `null`, and
`null !== branch` then nulls `branch` as well). -/
def findVersion (branch : Option String) : Option String × Option String :=
  match branch with
  | none => (none, none)
  | some b =>
    if b = "" then (none, none)
    else
      let v := jsReplaceFirst b "semver:" ""
      if v = b then (some b, none) else (none, some v)

/-- Embedding of `src.match(/^(git\x2b(ssh:\/\/|https:\/\/)|git:\/\/)(.*)$/)`
followed by the source's reconstruction of `url`: for `git+ssh://` and
`git+https://` the `git+` is dropped, `git://` is kept whole. The regex's
`(.*)$` (no `s`/`m` flags) forces the remainder to contain no line
terminator. -/
def matchGitUrl (src : String) : Option String :=
  if jsStartsWith src "git+ssh://" && !(src.toList.drop 10).any isLineTerm then
    some ("ssh://" ++ (⟨src.toList.drop 10⟩ : String))
  else if jsStartsWith src "git+https://" && !(src.toList.drop 12).any isLineTerm then
    some ("https://" ++ (⟨src.toList.drop 12⟩ : String))
  else if jsStartsWith src "git://" && !(src.toList.drop 6).any isLineTerm then
    some src
  else none

/-- POSIX `path.isAbsolute`. -/
def isAbsolute (p : String) : Bool :=
  jsStartsWith p "/"

/-- Model of `path.resolve(root, dir)` for a relative `dir` and an
absolute `root`: the joined path. Segment normalisation (`..`, `.`,
duplicate slashes) is omitted — no claim depends on it. -/
def pathResolve (root dir : String) : String :=
  root ++ "/" ++ dir

/-- Candidate git URL for one host template of a remotes entry
(the body of the `for (const host of hosts)` loop of `expandSrc`). -/
def hostUrl (root repo host : String) : String :=
  if jsStartsWith host "file:" then
    let dir := jsReplaceFirst host "file:" ""
    let dir := if isAbsolute dir then dir else pathResolve root dir
    dir ++ "/" ++ repo ++ "/.git"
  else
    host ++ "/" ++ repo ++ ".git"

/-- Embedding of `expandSrc(root, remotes, name, src)`.
Branches, in source order: a direct git URL; a bare version when no
remotes table exists; otherwise the `remote:repo#fragment` form resolved
against the table. When `src` has no colon in the third branch, the
destructured `id` is `undefined` and `id.split('#')` throws a JS
`TypeError`. A falsy table entry fails the source's `!hosts` check
(`Unknown remote`), a truthy non-array its `Array.isArray` check. -/
def expandSrc (root : String) (remotes : Option (List (String × RemoteVal)))
    (name src : String) : Except GpkError Expanded :=
  match matchGitUrl src with
  | some url =>
    let he := jsSplitHash url
    let bv := findVersion he.2
    .ok ⟨[he.1], bv.2, bv.1⟩
  | none =>
    match remotes with
    | none => .ok ⟨[], some src, none⟩
    | some table =>
      match breakColon src with
      | (_, none) => .error .typeError
      | (remote, some id) =>
        let re := jsSplitHash id
        let bv := findVersion re.2
        let repo := if re.1 = "" then name else re.1
        match assocGet table remote with
        | none => .error (.unknownRemote remote)
        | some (.other false) => .error (.unknownRemote remote)
        | some (.other true) => .error .invalidRemotes
        | some (.arr hosts) =>
          .ok ⟨hosts.map (hostUrl root repo), bv.2, bv.1⟩

/- ===================== Tag matcher ===================== -/

/-- Insertion into a descending-sorted list, the building block of the
sort `matchTag` performs (comparator `(a, b) => a == b ? 0 : a < b ? 1 : -1`). -/
def insertDesc (x : String) : List String → List String
  | [] => [x]
  | y :: ys => if jsLt x y then y :: insertDesc x ys else x :: y :: ys

/-- Descending whole-string sort of a list of strings. Equal strings are
identical, so this list equals the one produced by the source's stable
`Array.prototype.sort` with the same comparator. -/
def sortDesc (l : List String) : List String :=
  l.foldr insertDesc []

/-- Embedding of `matchTag(tags, needed)`. The semver range predicate is
an external trusted primitive (spec §1) and enters as the parameter
`sat`; `needed` is `Option` because the caller passes a possibly-null
version. Keep tags starting with `v`, sort descending by whole-string
comparison, return the first whose value with the first `v` removed
satisfies the range. -/
def matchTag (sat : String → Option String → Bool) (tags : List String)
    (needed : Option String) : Option String :=
  (sortDesc (tags.filter (fun tg => jsStartsWith tg "v"))).find?
    (fun tg => sat (jsReplaceFirst tg "v" "") needed)

/- ===================== Install orchestrator ===================== -/

/-- Tag-listing entry `{annotated, commit}` of the external git
collaborator's result. -/
structure TagInfo where
  annotated : Bool
  commit : String
deriving DecidableEq, Repr

/-- Parsed manifest (`package.json`), restricted to the fields the
embedded code reads. Dependency maps are insertion-ordered association
lists, as JS object key order is significant here (spec §3). -/
structure Pkg where
  version : String
  dependencies : Option (List (String × String)) := none
  devDependencies : Option (List (String × String)) := none
  remotes : Option (List (String × RemoteVal)) := none
deriving DecidableEq, Repr

/-- Environment of external collaborators (spec §1 "out of scope"
interfaces): manifest reads (`none` = ENOENT; other IO failures and
parse errors are outside every claim), git tag listing, clone, verify
(which may throw, hence `Except`), the semver predicate, and the
`binding.gyp` presence probe. -/
structure Env where
  readPkg : String → Option Pkg
  listTags : String → List (String × TagInfo)
  cloneRepo : String → String → String → Bool
  verifyRepo : Option String → Option String → String → Except String Bool
  satisfies : String → Option String → Bool
  hasGyp : String → Bool

/-- Recorded calls to the external git/build collaborators, plus an
`enter` marker for each invocation of `install`. `listTags`, `clone`
and `verify` are the network operations. -/
inductive Ev where
  | enter (dst : String) (prefixArg : Option String) (production : Bool)
  | listTags (url : String)
  | clone (tag url dst : String)
  | verify (tag : Option String) (commit : Option String) (dst : String)
  | rebuild (root : String)
deriving DecidableEq, Repr

/-- Flat installation path `path.join(base, './node_modules/' + name)`. -/
def nodeModulesPath (base name : String) : String :=
  base ++ "/node_modules/" ++ name

/-- Verification call selected by the source: annotated tags are checked
by tag, others by expected commit. -/
def verifyCall (env : Env) (ti : TagInfo) (tag dst : String) : Except String Bool :=
  if ti.annotated then env.verifyRepo (some tag) none dst
  else env.verifyRepo none (some ti.commit) dst

/-- Trace event of `verifyCall`. -/
def verifyEv (ti : TagInfo) (tag dst : String) : Ev :=
  if ti.annotated then Ev.verify (some tag) none dst
  else Ev.verify none (some ti.commit) dst

/-- Embedding of the `for (const url of git)` loop of `install`: list the
host's tags, match one, clone (the returned boolean is bound and then
immediately overwritten, exactly as in the source), verify, and stop at
the first verified clone (`ok true`); a host with no matching tag or a
failed verification is skipped; a verification that throws aborts with a
wrapped `VerificationError`. -/
def tryHosts (env : Env) (version : Option String) (dst : String) :
    List String → Except GpkError Bool × List Ev
  | [] => (.ok false, [])
  | url :: rest =>
    let tags := env.listTags url
    match matchTag env.satisfies (tags.map (·.1)) version with
    | none =>
      let p := tryHosts env version dst rest
      (p.1, Ev.listTags url :: p.2)
    | some tag =>
      match assocGet tags tag with
      | none => (.error .typeError, [Ev.listTags url])
      | some ti =>
        let _success := env.cloneRepo tag url dst
        match verifyCall env ti tag dst with
        | .error msg =>
          (.error (.verificationError dst msg),
            [Ev.listTags url, Ev.clone tag url dst, verifyEv ti tag dst])
        | .ok true =>
          (.ok true, [Ev.listTags url, Ev.clone tag url dst, verifyEv ti tag dst])
        | .ok false =>
          let p := tryHosts env version dst rest
          (p.1, Ev.listTags url :: Ev.clone tag url dst :: verifyEv ti tag dst :: p.2)

/-- Placement decision of `install` for one dependency: probe the flat
path `prefix/node_modules/name`; a compatible manifest there means skip
(`none`); an incompatible one redirects to `root/node_modules/name`;
no manifest keeps the flat path. -/
def chooseDst (env : Env) (root preV name : String) (version : Option String) :
    Option String :=
  match env.readPkg (nodeModulesPath preV name) with
  | some ex =>
    if env.satisfies ex.version version then none
    else some (nodeModulesPath root name)
  | none => some (nodeModulesPath preV name)

/-- One iteration of the dependency loop of `install`: expand the
specifier, decide placement, fail on an empty candidate list, then try
the candidate hosts in order. `ok (some dst)` means `dst` was recorded
as newly installed; `ok none` means the dependency was skipped or no
host satisfied it (the source records nothing and moves on). -/
def processDep (env : Env) (root preV : String)
    (remotes : Option (List (String × RemoteVal))) (name src : String) :
    Except GpkError (Option String) × List Ev :=
  match expandSrc preV remotes name src with
  | .error e => (.error e, [])
  | .ok exp =>
    match chooseDst env root preV name exp.version with
    | none => (.ok none, [])
    | some dst =>
      if exp.git = [] then (.error (.unknownRemotes name), [])
      else
        match tryHosts env exp.version dst exp.git with
        | (.error e, evs) => (.error e, evs)
        | (.ok true, evs) => (.ok (some dst), evs)
        | (.ok false, evs) => (.ok none, evs)

/-- The dependency loop of `install` over the (merged) dependency map,
in insertion order, accumulating the newly installed paths. An error
aborts the loop (and with it the whole call). -/
def depLoop (env : Env) (root preV : String)
    (remotes : Option (List (String × RemoteVal))) :
    List (String × String) → Except GpkError (List String) × List Ev
  | [] => (.ok [], [])
  | (name, src) :: rest =>
    match processDep env root preV remotes name src with
    | (.error e, evs) => (.error e, evs)
    | (.ok r, evs) =>
      match depLoop env root preV remotes rest with
      | (.error e, evs2) => (.error e, evs ++ evs2)
      | (.ok l, evs2) => (.ok (r.toList ++ l), evs ++ evs2)

/-- Truthiness of a JS property read that yields `undefined` or a string:
`!dependencies[name]` is true exactly when the name is absent or its
value is the empty string. -/
def jsTruthyStr : Option String → Bool
  | none => false
  | some s => s ≠ ""

/-- JS `obj[key] = value` on an insertion-ordered object: an existing key
keeps its position and gets the new value, a new key is appended. -/
def jsSetKey (m : List (String × String)) (k v : String) : List (String × String) :=
  if (assocGet m k).isSome then m.map (fun p => if p.1 = k then (k, v) else p)
  else m ++ [(k, v)]

/-- Body of the dev-dependency merge loop: `if (!dependencies[name])
dependencies[name] = src`. -/
def mergeStep (acc : List (String × String)) (e : String × String) :
    List (String × String) :=
  if jsTruthyStr (assocGet acc e.1) then acc else jsSetKey acc e.1 e.2

/-- Embedding of the dev-dependency merge of `install`: skipped in
production mode or when the manifest has no `devDependencies`. -/
def mergeDeps (production : Bool) (deps : List (String × String))
    (dev : Option (List (String × String))) : List (String × String) :=
  if production then deps
  else
    match dev with
    | none => deps
    | some d => d.foldl mergeStep deps

/-- Sequential run of a step over a list of paths, aborting at the first
error and concatenating traces — the shape of the source's
`for (const nextDst of installed) await install(nextDst, prefix)`. -/
def runAll (f : String → Except GpkError Unit × List Ev) :
    List String → Except GpkError Unit × List Ev
  | [] => (.ok (), [])
  | p :: ps =>
    match f p with
    | (.error e, evs) => (.error e, evs)
    | (.ok _, evs) =>
      let q := runAll f ps
      (q.1, evs ++ q.2)

/-- Embedding of `install(dst, prefix, options)` with explicit recursion
fuel. Locate the manifest at `dstArg` without walking upward (failing
with `Unknown package` when absent); default the prefix to the package's
own directory; return at once when there are no dependencies (the source
returns before the `binding.gyp` probe in that case); merge dev
dependencies; run the dependency loop; recurse on every newly installed
path with the original prefix and default options (`production = false`);
finally trigger the native build when `binding.gyp` is present. -/
def install (env : Env) : Nat → String → Option String → Bool →
    Except GpkError Unit × List Ev
  | 0, dstArg, prefixArg, production =>
    (.error .noFuel, [Ev.enter dstArg prefixArg production])
  | fuel + 1, dstArg, prefixArg, production =>
    let entry := Ev.enter dstArg prefixArg production
    match env.readPkg dstArg with
    | none => (.error .unknownPackage, [entry])
    | some pkg =>
      let root := dstArg
      let preV := prefixArg.getD root
      match pkg.dependencies with
      | none => (.ok (), [entry])
      | some deps =>
        match depLoop env root preV pkg.remotes
            (mergeDeps production deps pkg.devDependencies) with
        | (.error e, evs) => (.error e, entry :: evs)
        | (.ok installed, evs) =>
          match runAll (fun p => install env fuel p (some preV) false) installed with
          | (.error e, evs2) => (.error e, entry :: (evs ++ evs2))
          | (.ok _, evs2) =>
            (.ok (), entry :: (evs ++ evs2) ++
              (if env.hasGyp root then [Ev.rebuild root] else []))

/- ===================== Concrete test data ===================== -/

/-- Concrete semver oracle for witnesses: only `1.0.0` satisfies `^1.0.0`
(the range predicate itself is an external collaborator). -/
def wsat : String → Option String → Bool :=
  fun v r => v == "1.0.0" && r == some "^1.0.0"

/-- Concrete semver oracle for the matcher witnesses. -/
def sat7 : String → Option String → Bool :=
  fun v r => (v == "1.0.0" || v == "1.5.0") && r == some "rng"

/-- Concrete tag set for the matcher witnesses. -/
def wtags : List String := ["v1.0.0", "v1.5.0", "v2.0.0"]

/-- Package whose one dependency no host can satisfy. -/
def wpkgC2 : Pkg :=
  { version := "1.0.0"
    dependencies := some [("x", "r:x#semver:^1.0.0")]
    remotes := some [("r", RemoteVal.arr ["https://h"])] }

/-- Environment where the only offered tag (`v0.5.0`) fails the range. -/
def envC2 : Env :=
  { readPkg := fun p => if p = "/app" then some wpkgC2 else none
    listTags := fun _ => [("v0.5.0", ⟨true, "c0"⟩)]
    cloneRepo := fun _ _ _ => true
    verifyRepo := fun _ _ _ => .ok true
    satisfies := wsat
    hasGyp := fun _ => false }

/-- Top-level package requesting `b` at `^1.0.0`. -/
def wpkgC3 : Pkg :=
  { version := "1.0.0"
    dependencies := some [("b", "r:b#semver:^1.0.0")]
    remotes := some [("r", RemoteVal.arr ["https://h"])] }

/-- Stale incompatible installation of `b`. -/
def wpkgOld : Pkg := { version := "0.9.0" }

/-- Environment where the flat path already holds the incompatible
`wpkgOld` and the host offers a satisfying `v1.0.0`. -/
def envC3 : Env :=
  { readPkg := fun p =>
      if p = "/app" then some wpkgC3
      else if p = "/app/node_modules/b" then some wpkgOld else none
    listTags := fun _ => [("v1.0.0", ⟨true, "c1"⟩)]
    cloneRepo := fun _ _ _ => true
    verifyRepo := fun _ _ _ => .ok true
    satisfies := wsat
    hasGyp := fun _ => false }

/-- Environment with an incompatible manifest at the flat probe path and
nothing else; used with a recursive (`root ≠ prefix`) placement. -/
def envC3w : Env :=
  { readPkg := fun p => if p = nodeModulesPath "/app" "b" then some wpkgOld else none
    listTags := fun _ => []
    cloneRepo := fun _ _ _ => true
    verifyRepo := fun _ _ _ => .ok true
    satisfies := fun _ _ => false
    hasGyp := fun _ => false }

/-- Leaf package with an empty dependency map. -/
def wpkgC9 : Pkg := { version := "1.0.0", dependencies := some [] }

/-- Environment holding only the leaf package. -/
def envC9 : Env :=
  { readPkg := fun p => if p = "/app" then some wpkgC9 else none
    listTags := fun _ => []
    cloneRepo := fun _ _ _ => true
    verifyRepo := fun _ _ _ => .ok true
    satisfies := fun _ _ => false
    hasGyp := fun _ => false }

/-- Annotated tag record used by the host-loop witnesses. -/
def wti : TagInfo := ⟨true, "c1"⟩

/-- Environment whose clone operation reports failure while verification
succeeds: the recorded outcome must ignore the clone's boolean. -/
def envC10 : Env :=
  { readPkg := fun _ => none
    listTags := fun _ => [("v1.0.0", wti)]
    cloneRepo := fun _ _ _ => false
    verifyRepo := fun _ _ _ => .ok true
    satisfies := wsat
    hasGyp := fun _ => false }

/- ===================== Order lemmas for the sort ===================== -/

/-- Strings are never JS-less-than themselves. -/
theorem lexLt_irrefl (l : List Char) : lexLt l l = false := by
  induction l with
  | nil => rfl
  | cons a as ih => simp [lexLt, ih]

/-- Transitivity of the lexicographic strict order. -/
theorem lexLt_trans : ∀ {a b c : List Char},
    lexLt a b = true → lexLt b c = true → lexLt a c = true
  | [], _ :: _, _ :: _, _, _ => rfl
  | [], [], _, h, _ => by simp [lexLt] at h
  | _, _ :: _, [], _, h => by simp [lexLt] at h
  | _ :: _, [], _, h, _ => by simp [lexLt] at h
  | x :: xs, y :: ys, z :: zs, h1, h2 => by
    simp only [lexLt] at h1 h2 ⊢
    by_cases hxy : x < y
    · by_cases hyz : y < z
      · simp [lt_trans hxy hyz]
      · by_cases hzy : z < y
        · simp [hyz, hzy] at h2
        · have : y = z := le_antisymm (not_lt.mp hzy) (not_lt.mp hyz)
          subst this
          simp [hxy]
    · by_cases hyx : y < x
      · simp [hxy, hyx] at h1
      · have hexy : x = y := le_antisymm (not_lt.mp hyx) (not_lt.mp hxy)
        subst hexy
        simp only [lt_irrefl, if_false, if_neg (lt_irrefl x)] at h1
        by_cases hyz : x < z
        · simp [hyz]
        · by_cases hzy : z < x
          · simp [hyz, hzy] at h2
          · have : x = z := le_antisymm (not_lt.mp hzy) (not_lt.mp hyz)
            subst this
            simp only [lt_irrefl, if_false, if_neg (lt_irrefl x)] at h2 ⊢
            exact lexLt_trans h1 h2

/-- Asymmetry of the lexicographic strict order. -/
theorem lexLt_asymm {a b : List Char} (h : lexLt a b = true) : lexLt b a = false := by
  cases hb : lexLt b a with
  | false => rfl
  | true => exact absurd (lexLt_trans h hb) (by simp [lexLt_irrefl])

/-- Two lists neither of which is JS-less-than the other are equal. -/
theorem lexLt_connex : ∀ {a b : List Char},
    lexLt a b = false → lexLt b a = false → a = b
  | [], [], _, _ => rfl
  | [], _ :: _, h, _ => by simp [lexLt] at h
  | _ :: _, [], _, h => by simp [lexLt] at h
  | x :: xs, y :: ys, h1, h2 => by
    simp only [lexLt] at h1 h2
    by_cases hxy : x < y
    · simp [hxy] at h1
    · by_cases hyx : y < x
      · simp [hyx, hxy] at h2
      · have hexy : x = y := le_antisymm (not_lt.mp hyx) (not_lt.mp hxy)
        subst hexy
        simp only [lt_irrefl, if_false, if_neg (lt_irrefl x)] at h1 h2
        rw [lexLt_connex h1 h2]

/-- String-level irreflexivity. -/
theorem jsLt_irrefl (s : String) : jsLt s s = false :=
  lexLt_irrefl s.toList

/-- String-level asymmetry. -/
theorem jsLt_asymm {a b : String} (h : jsLt a b = true) : jsLt b a = false :=
  lexLt_asymm h

/-- String-level transitivity. -/
theorem jsLt_trans {a b c : String} (h1 : jsLt a b = true) (h2 : jsLt b c = true) :
    jsLt a c = true :=
  lexLt_trans h1 h2

/-- Strings neither of which is JS-less-than the other are equal. -/
theorem jsLt_connex {a b : String} (h1 : jsLt a b = false) (h2 : jsLt b a = false) :
    a = b := by
  have h := lexLt_connex h1 h2
  cases a with
  | mk d1 =>
    cases b with
    | mk d2 => exact congrArg String.mk (by simpa [String.toList] using h)

/-- Transitivity of JS not-less-than: the relation the descending sort
establishes between any element and every later one. -/
theorem jsLt_false_trans {x y b : String} (h1 : jsLt x y = false)
    (h2 : jsLt y b = false) : jsLt x b = false := by
  cases hxb : jsLt x b with
  | false => rfl
  | true =>
    cases hby : jsLt b y with
    | true => exact absurd (jsLt_trans hxb hby) (by simp [h1])
    | false =>
      have hby' : b = y := jsLt_connex hby h2
      subst hby'
      rw [h1] at hxb
      cases hxb

/- ===================== Sort lemmas ===================== -/

/-- Membership in an insertion. -/
theorem mem_insertDesc {a x : String} : ∀ {l : List String},
    a ∈ insertDesc x l ↔ a = x ∨ a ∈ l
  | [] => by simp [insertDesc]
  | y :: ys => by
    simp only [insertDesc]
    cases h : jsLt x y with
    | true =>
      simp only [h, if_true, List.mem_cons, mem_insertDesc (l := ys)]
      tauto
    | false =>
      simp only [h, Bool.false_eq_true, if_false, List.mem_cons]

/-- Unfolding of the sort on a cons cell. -/
theorem sortDesc_cons (x : String) (l : List String) :
    sortDesc (x :: l) = insertDesc x (sortDesc l) := rfl

/-- The sort keeps exactly the input's elements. -/
theorem mem_sortDesc {a : String} : ∀ {l : List String}, a ∈ sortDesc l ↔ a ∈ l
  | [] => Iff.rfl
  | x :: xs => by
    rw [sortDesc_cons, mem_insertDesc, mem_sortDesc (l := xs), List.mem_cons]

/-- Insertion preserves descending sortedness. -/
theorem pairwise_insertDesc (x : String) : ∀ {l : List String},
    l.Pairwise (fun a b => jsLt a b = false) →
    (insertDesc x l).Pairwise (fun a b => jsLt a b = false)
  | [], _ => by simp [insertDesc]
  | y :: ys, h => by
    rcases List.pairwise_cons.mp h with ⟨hy, hys⟩
    simp only [insertDesc]
    cases hxy : jsLt x y with
    | true =>
      simp only [hxy, if_true]
      refine List.pairwise_cons.mpr ⟨?_, pairwise_insertDesc x hys⟩
      intro b hb
      rcases mem_insertDesc.mp hb with rfl | hb
      · exact jsLt_asymm hxy
      · exact hy b hb
    | false =>
      simp only [hxy, Bool.false_eq_true, if_false]
      refine List.pairwise_cons.mpr ⟨?_, h⟩
      intro b hb
      rcases List.mem_cons.mp hb with rfl | hb
      · exact hxy
      · exact jsLt_false_trans hxy (hy b hb)

/-- The sort's output is descending-sorted. -/
theorem pairwise_sortDesc : ∀ (l : List String),
    (sortDesc l).Pairwise (fun a b => jsLt a b = false)
  | [] => List.Pairwise.nil
  | x :: xs => by
    rw [sortDesc_cons]
    exact pairwise_insertDesc x (pairwise_sortDesc xs)

/-- In a descending-sorted list, the first element satisfying `p` is
maximal (in JS string order) among all elements satisfying `p`. -/
theorem find?_max_of_pairwise {p : String → Bool} {l : List String} {t : String}
    (hp : l.Pairwise (fun a b => jsLt a b = false)) (hf : l.find? p = some t) :
    ∀ u ∈ l, p u = true → jsLt t u = false := by
  induction l with
  | nil => simp at hf
  | cons x xs ih =>
    rcases List.pairwise_cons.mp hp with ⟨hx, hxs⟩
    intro u hu hpu
    by_cases hpx : p x = true
    · rw [List.find?_cons_of_pos _ hpx] at hf
      injection hf with hf
      subst hf
      rcases List.mem_cons.mp hu with rfl | hu2
      · exact jsLt_irrefl _
      · exact hx u hu2
    · rw [List.find?_cons_of_neg _ hpx] at hf
      rcases List.mem_cons.mp hu with rfl | hu2
      · exact absurd hpu hpx
      · exact ih hxs hf u hu2 hpu

/- ===================== Tag-matcher characterisation ===================== -/

/-- Full characterisation of a successful match: the result is a `v`-tag
of the input whose stripped value satisfies the range, and it is the
string-order maximum among all such tags — i.e. the first one met when
scanning the descending-sorted qualifying tags. -/
theorem matchTag_eq_some_iff {sat : String → Option String → Bool}
    {tags : List String} {needed : Option String} {t : String} :
    matchTag sat tags needed = some t ↔
      t ∈ tags ∧ jsStartsWith t "v" = true ∧
      sat (jsReplaceFirst t "v" "") needed = true ∧
      ∀ u ∈ tags, jsStartsWith u "v" = true →
        sat (jsReplaceFirst u "v" "") needed = true → jsLt t u = false := by
  unfold matchTag
  constructor
  · intro h
    have hmem : t ∈ sortDesc (tags.filter (fun tg => jsStartsWith tg "v")) :=
      List.mem_of_find?_eq_some h
    have hmem' := List.mem_filter.mp (mem_sortDesc.mp hmem)
    have hpt : sat (jsReplaceFirst t "v" "") needed = true := by
      simpa using List.find?_some h
    refine ⟨hmem'.1, hmem'.2, hpt, ?_⟩
    intro u hu hsv hsat
    have humem : u ∈ sortDesc (tags.filter (fun tg => jsStartsWith tg "v")) :=
      mem_sortDesc.mpr (List.mem_filter.mpr ⟨hu, hsv⟩)
    exact find?_max_of_pairwise (pairwise_sortDesc _) h u humem hsat
  · rintro ⟨hmem, hsv, hsat, hmax⟩
    have htl : t ∈ sortDesc (tags.filter (fun tg => jsStartsWith tg "v")) :=
      mem_sortDesc.mpr (List.mem_filter.mpr ⟨hmem, hsv⟩)
    cases hfind : (sortDesc (tags.filter (fun tg => jsStartsWith tg "v"))).find?
        (fun tg => sat (jsReplaceFirst tg "v" "") needed) with
    | none =>
      exact absurd hsat (List.find?_eq_none.mp hfind t htl)
    | some t2 =>
      have hmem2 : t2 ∈ sortDesc (tags.filter (fun tg => jsStartsWith tg "v")) :=
        List.mem_of_find?_eq_some hfind
      have hmem2' := List.mem_filter.mp (mem_sortDesc.mp hmem2)
      have hpt2 : sat (jsReplaceFirst t2 "v" "") needed = true := by
        simpa using List.find?_some hfind
      have h12 : jsLt t t2 = false := hmax t2 hmem2'.1 hmem2'.2 hpt2
      have h21 : jsLt t2 t = false :=
        find?_max_of_pairwise (pairwise_sortDesc _) hfind t htl hsat
      rw [jsLt_connex h21 h12]

/-- A null result means no qualifying tag satisfies the range. -/
theorem matchTag_eq_none_iff {sat : String → Option String → Bool}
    {tags : List String} {needed : Option String} :
    matchTag sat tags needed = none ↔
      ∀ u ∈ tags, jsStartsWith u "v" = true →
        sat (jsReplaceFirst u "v" "") needed = false := by
  unfold matchTag
  rw [List.find?_eq_none]
  constructor
  · intro h u hu hsv
    have := h u (mem_sortDesc.mpr (List.mem_filter.mpr ⟨hu, hsv⟩))
    simpa using this
  · intro h u hu
    have hu' := List.mem_filter.mp (mem_sortDesc.mp hu)
    simp [h u hu'.1 hu'.2]

/- ===================== Claims C6 and C7 ===================== -/

/-- C6: for every tag set and range, `matchTag` considers only tags
beginning with `v`, orders them by descending whole-string (lexicographic,
not numeric) comparison, and returns the first tag in that order whose
value with the leading `v` stripped satisfies the range — equivalently,
the returned tag is the string-order maximum among the qualifying
satisfying tags — and returns null exactly when no qualifying tag
satisfies the range. -/
theorem c6_matchTag_policy (sat : String → Option String → Bool)
    (tags : List String) (needed : Option String) :
    (∀ t, matchTag sat tags needed = some t ↔
      t ∈ tags ∧ jsStartsWith t "v" = true ∧
      sat (jsReplaceFirst t "v" "") needed = true ∧
      ∀ u ∈ tags, jsStartsWith u "v" = true →
        sat (jsReplaceFirst u "v" "") needed = true → jsLt t u = false) ∧
    (matchTag sat tags needed = none ↔
      ∀ u ∈ tags, jsStartsWith u "v" = true →
        sat (jsReplaceFirst u "v" "") needed = false) :=
  ⟨fun _ => matchTag_eq_some_iff, matchTag_eq_none_iff⟩

/-- C7: everything `matchTag` returns is drawn from the input tag set,
carries the `v` prefix, and its stripped value satisfies the range. -/
theorem c7_matchTag_sound (sat : String → Option String → Bool)
    (tags : List String) (needed : Option String) (t : String)
    (h : matchTag sat tags needed = some t) :
    t ∈ tags ∧ jsStartsWith t "v" = true ∧
      sat (jsReplaceFirst t "v" "") needed = true := by
  rcases matchTag_eq_some_iff.mp h with ⟨h1, h2, h3, _⟩
  exact ⟨h1, h2, h3⟩

/-- Witness for C7 at the spec's §8 scenario: of tags
`v1.0.0, v1.5.0, v2.0.0` with only the first two satisfying, `v1.5.0`
is returned and is a satisfying `v`-tag of the input. -/
theorem c7_witness :
    "v1.5.0" ∈ wtags ∧ jsStartsWith "v1.5.0" "v" = true ∧
      sat7 (jsReplaceFirst "v1.5.0" "v" "") (some "rng") = true :=
  c7_matchTag_sound sat7 wtags (some "rng") "v1.5.0" rfl

/- ===================== Claims C4 and C1 (expander) ===================== -/

/-- Fragment resolution never produces both a branch and a version. -/
theorem findVersion_cases (b : Option String) :
    (findVersion b).1 = none ∨ (findVersion b).2 = none := by
  unfold findVersion
  cases b with
  | none => exact Or.inl rfl
  | some s =>
    dsimp only
    split_ifs
    · exact Or.inl rfl
    · exact Or.inr rfl
    · exact Or.inl rfl

/-- C4 (amended): a successful expansion never sets both `versionRange`
and `branch`; at most one is non-null. (The original claim's "never
neither" fails: a specifier with no fragment leaves both null, see the
counterexample.) -/
theorem c4_amended (root : String) (remotes : Option (List (String × RemoteVal)))
    (name src : String) (exp : Expanded)
    (h : expandSrc root remotes name src = Except.ok exp) :
    exp.version = none ∨ exp.branch = none := by
  unfold expandSrc at h
  repeat' split at h
  all_goals cases h
  all_goals first
    | exact Or.symm (findVersion_cases _)
    | exact Or.inr rfl

/-- Witness for C4 at a git-URL specifier with a `semver:` fragment. -/
theorem c4_witness :
    (Expanded.mk ["https://e/p.git"] (some "^1.2.0") none).version = none ∨
      (Expanded.mk ["https://e/p.git"] (some "^1.2.0") none).branch = none :=
  c4_amended "/r" none "foo" "git+https://e/p.git#semver:^1.2.0"
    (Expanded.mk ["https://e/p.git"] (some "^1.2.0") none) rfl

/-- C4 counterexample: a direct git URL without a fragment expands
successfully with `version` and `branch` both null, refuting "exactly
one ... never neither". -/
theorem c4_counterexample :
    expandSrc "/r" none "foo" "git://h/p" =
      Except.ok (Expanded.mk ["git://h/p"] none none) := rfl

/-- C1: evaluating the expander at the spec's own example —
`remotes = {origin: ["https://h.example/org"]}`, dependency `foo`,
specifier `origin#develop` — produces a JS `TypeError` (the source
destructures `id` from a split that found no colon, leaving it
`undefined`, and then calls `id.split('#')`), not the documented
candidate list with branch `develop`. -/
theorem c1_crash_eval :
    expandSrc "/r" (some [("origin", RemoteVal.arr ["https://h.example/org"])])
      "foo" "origin#develop" = Except.error GpkError.typeError := rfl

/- ===================== Claim C8 (remote-table errors) ===================== -/

/-- C8 (amended): for a remote-alias specifier containing a colon (and
not matching the git-URL grammar), an alias absent from the table — or
mapped to a falsy value — fails expansion with `UnknownRemoteError`, and
an alias mapped to a truthy non-array value fails it with
`InvalidRemotesError`; a colon-less remote-alias specifier instead fails
with a `TypeError`. Whenever expansion fails, the install loop performs
no tag-listing (network) call for that dependency: its event trace is
empty. -/
theorem c8_amended :
    (∀ (root : String) (table : List (String × RemoteVal)) (name src remote id : String),
      matchGitUrl src = none → breakColon src = (remote, some id) →
      (assocGet table remote = none ∨
        assocGet table remote = some (RemoteVal.other false)) →
      expandSrc root (some table) name src =
        Except.error (GpkError.unknownRemote remote)) ∧
    (∀ (root : String) (table : List (String × RemoteVal)) (name src remote id : String),
      matchGitUrl src = none → breakColon src = (remote, some id) →
      assocGet table remote = some (RemoteVal.other true) →
      expandSrc root (some table) name src = Except.error GpkError.invalidRemotes) ∧
    (∀ (env : Env) (root preV : String)
      (remotes : Option (List (String × RemoteVal))) (name src : String)
      (e : GpkError),
      expandSrc preV remotes name src = Except.error e →
      processDep env root preV remotes name src = (Except.error e, [])) := by
  refine ⟨?_, ?_, ?_⟩
  · intro root table name src remote id hg hc hl
    unfold expandSrc
    rw [hg]
    dsimp only
    rw [hc]
    dsimp only
    rcases hl with hl | hl <;> rw [hl]
  · intro root table name src remote id hg hc hl
    unfold expandSrc
    rw [hg]
    dsimp only
    rw [hc]
    dsimp only
    rw [hl]
  · intro env root preV remotes name src e he
    unfold processDep
    rw [he]

/-- C8 counterexample: (1) the remote-alias specifier `nope` (no colon),
whose alias is absent from the table, fails with a `TypeError` — not the
claimed `UnknownRemoteError`; (2) the alias `e` is present but mapped to
a falsy non-array value, and expansion fails with `UnknownRemoteError` —
not the claimed `InvalidRemotesError`. -/
theorem c8_counterexample :
    expandSrc "/r" (some [("origin", RemoteVal.arr ["https://h"])]) "foo" "nope" =
        Except.error GpkError.typeError ∧
      expandSrc "/r" (some [("e", RemoteVal.other false)]) "foo" "e:x" =
        Except.error (GpkError.unknownRemote "e") :=
  ⟨rfl, rfl⟩

/- ===================== Claim C5 (dev-dependency merge) ===================== -/

/-- Rewriting an unrelated key leaves a lookup unchanged (map branch of
`jsSetKey`). -/
theorem assocGet_map_setKey_ne (k n v : String) (h : k ≠ n) :
    ∀ (m : List (String × String)),
      assocGet (m.map (fun p => if p.1 = k then (k, v) else p)) n = assocGet m n
  | [] => rfl
  | (a, b) :: rest => by
    dsimp only [List.map_cons]
    by_cases hak : a = k
    · rw [if_pos hak]
      simp only [assocGet]
      rw [if_neg h, if_neg (fun han => h (hak.symm.trans han))]
      exact assocGet_map_setKey_ne k n v h rest
    · rw [if_neg hak]
      simp only [assocGet]
      by_cases han : a = n
      · rw [if_pos han, if_pos han]
      · rw [if_neg han, if_neg han]
        exact assocGet_map_setKey_ne k n v h rest

/-- Appending an unrelated key leaves a lookup unchanged (append branch
of `jsSetKey`). -/
theorem assocGet_append_ne (k n v : String) (h : k ≠ n) :
    ∀ (m : List (String × String)), assocGet (m ++ [(k, v)]) n = assocGet m n
  | [] => by
    simp only [List.nil_append, assocGet]
    rw [if_neg h]
  | (a, b) :: rest => by
    simp only [List.cons_append, assocGet]
    by_cases han : a = n
    · rw [if_pos han, if_pos han]
    · rw [if_neg han, if_neg han]
      exact assocGet_append_ne k n v h rest

/-- A JS property write to one key does not change reads of another. -/
theorem assocGet_jsSetKey_ne (m : List (String × String)) (k n v : String)
    (h : k ≠ n) : assocGet (jsSetKey m k v) n = assocGet m n := by
  unfold jsSetKey
  split
  · exact assocGet_map_setKey_ne k n v h m
  · exact assocGet_append_ne k n v h m

/-- Writing an absent key makes it readable. -/
theorem assocGet_jsSetKey_absent (m : List (String × String)) (k v : String)
    (h : assocGet m k = none) : assocGet (jsSetKey m k v) k = some v := by
  unfold jsSetKey
  rw [h]
  simp only [Option.isSome_none, Bool.false_eq_true, if_false]
  induction m with
  | nil => simp [assocGet]
  | cons p rest ih =>
    cases p with
    | mk a b =>
      simp only [List.cons_append, assocGet] at h ⊢
      by_cases hak : a = k
      · rw [if_pos hak] at h
        exact (Option.some_ne_none b h).elim
      · rw [if_neg hak] at h ⊢
        exact ih h

/-- The merge fold never overwrites a key that currently holds a
non-empty specifier. -/
theorem mergeFold_preserve (n s : String) (hs : s ≠ "") :
    ∀ (dev acc : List (String × String)),
      assocGet acc n = some s → assocGet (dev.foldl mergeStep acc) n = some s
  | [], _, h => h
  | (k, w) :: rest, acc, h => by
    simp only [List.foldl_cons]
    apply mergeFold_preserve n s hs rest
    unfold mergeStep
    dsimp only
    split
    · exact h
    · rename_i hcond
      by_cases hkn : k = n
      · rw [hkn, h] at hcond
        simp [jsTruthyStr, hs] at hcond
      · rw [assocGet_jsSetKey_ne acc k n w hkn]
        exact h

/-- The merge fold leaves a key untouched when no processed entry
carries it. -/
theorem mergeFold_untouched (n : String) :
    ∀ (l acc : List (String × String)),
      (∀ e ∈ l, e.1 ≠ n) → assocGet (l.foldl mergeStep acc) n = assocGet acc n
  | [], _, _ => rfl
  | (k, w) :: rest, acc, h => by
    simp only [List.foldl_cons]
    have hkn : k ≠ n := h (k, w) (List.mem_cons_self _ _)
    rw [mergeFold_untouched n rest (mergeStep acc (k, w))
      (fun e he => h e (List.mem_cons_of_mem _ he))]
    unfold mergeStep
    dsimp only
    split
    · rfl
    · exact assocGet_jsSetKey_ne acc k n w hkn

/-- A dev entry whose key is absent from the accumulator is written and
survives the rest of the fold (keys of the dev map being unique). -/
theorem mergeFold_absent (n v : String) :
    ∀ (dev acc : List (String × String)), assocGet acc n = none →
      (dev.map (fun e => e.1)).Nodup → assocGet dev n = some v →
      assocGet (dev.foldl mergeStep acc) n = some v
  | [], _, _, _, hv => by cases hv
  | (k, w) :: rest, acc, hacc, hnd, hv => by
    simp only [List.foldl_cons]
    simp only [List.map_cons, List.nodup_cons] at hnd
    by_cases hkn : k = n
    · have hv' : v = w := by
        simp only [assocGet] at hv
        rw [if_pos hkn] at hv
        exact (Option.some.injEq _ _ ▸ hv).symm
      have hstep : assocGet (mergeStep acc (k, w)) n = some w := by
        unfold mergeStep
        dsimp only
        rw [hkn, hacc]
        simp only [jsTruthyStr, Bool.false_eq_true, if_false]
        exact assocGet_jsSetKey_absent acc n w hacc
      rw [mergeFold_untouched n rest (mergeStep acc (k, w)) ?hrest]
      · rw [hstep, hv']
      case hrest =>
        intro e he hen
        exact hnd.1 (by
          have : e.1 ∈ rest.map (fun e => e.1) := List.mem_map_of_mem _ he
          rwa [hen, ← hkn] at this)
    · have hv' : assocGet rest n = some v := by
        simp only [assocGet] at hv
        rwa [if_neg hkn] at hv
      have hacc' : assocGet (mergeStep acc (k, w)) n = none := by
        unfold mergeStep
        dsimp only
        split
        · exact hacc
        · rw [assocGet_jsSetKey_ne acc k n w hkn]
          exact hacc
      exact mergeFold_absent n v rest (mergeStep acc (k, w)) hacc' hnd.2 hv'

/-- C5 (amended): a non-production merge writes a dev entry only when
the name is absent or currently holds the empty string: an existing
direct dependency with a non-empty specifier is never replaced, and a
dev entry whose name is genuinely new (dev keys being unique) ends up in
the merged map with the dev specifier. (The original claim's "whatever
its string value" fails for an existing empty-string specifier, which
the merge does overwrite — see the counterexample.) -/
theorem c5_amended (deps dev : List (String × String)) (n s : String) :
    (assocGet deps n = some s → s ≠ "" →
      assocGet (mergeDeps false deps (some dev)) n = some s) ∧
    (assocGet deps n = none → (dev.map (fun e => e.1)).Nodup →
      ∀ v, assocGet dev n = some v →
        assocGet (mergeDeps false deps (some dev)) n = some v) := by
  constructor
  · intro h hs
    simp only [mergeDeps, Bool.false_eq_true, if_false]
    exact mergeFold_preserve n s hs dev deps h
  · intro h hnd v hv
    simp only [mergeDeps, Bool.false_eq_true, if_false]
    exact mergeFold_absent n v dev deps h hnd hv

/-- Witness for C5 at the spec's §8 example: `a` stays at `1.0.0`
despite a dev entry `a:2.0.0`. -/
theorem c5_witness :
    assocGet (mergeDeps false [("a", "1.0.0")]
      (some [("a", "2.0.0"), ("b", "1.0.0")])) "a" = some "1.0.0" :=
  (c5_amended [("a", "1.0.0")] [("a", "2.0.0"), ("b", "1.0.0")] "a" "1.0.0").1
    rfl (by decide)

/-- C5 counterexample: the name `a` is present as a key of
`dependencies` (with the empty-string specifier), yet the non-production
merge replaces it with the dev entry's `2.0.0`, refuting "a
devDependencies entry never replaces the specifier of an existing direct
dependency, whatever its string value". -/
theorem c5_counterexample :
    assocGet [("a", "")] "a" = some "" ∧
      mergeDeps false [("a", "")] (some [("a", "2.0.0"), ("b", "1.0.0")]) =
        [("a", "2.0.0"), ("b", "1.0.0")] :=
  ⟨rfl, rfl⟩

/- ===================== Claim C3 (conflict placement) ===================== -/

/-- Flat paths with the same dependency name but different bases differ. -/
theorem nodeModulesPath_inj_base {r q n : String}
    (h : nodeModulesPath r n = nodeModulesPath q n) : r = q := by
  unfold nodeModulesPath at h
  have hd : (r ++ "/node_modules/" ++ n).data = (q ++ "/node_modules/" ++ n).data := by
    rw [h]
  simp only [String.data_append] at hd
  have h1 := List.append_cancel_right hd
  have h2 := List.append_cancel_right h1
  cases r with
  | mk d1 =>
    cases q with
    | mk d2 => exact congrArg String.mk h2

/-- C3 (amended): when the flat path `prefix/node_modules/name` holds a
manifest whose version fails the range, the clone destination becomes
`root/node_modules/name` under the current package's own directory, and
whenever `root ≠ prefix` (every recursive install) that nested path is
distinct from the flat path. (The original claim's unconditional
distinctness fails at the top level, where `prefix` defaults to `root`
and the two paths coincide — see the counterexample.) -/
theorem c3_amended (env : Env) (root preV name : String) (version : Option String)
    (ex : Pkg) (hp : env.readPkg (nodeModulesPath preV name) = some ex)
    (hs : env.satisfies ex.version version = false) (hne : root ≠ preV) :
    chooseDst env root preV name version = some (nodeModulesPath root name) ∧
      nodeModulesPath root name ≠ nodeModulesPath preV name := by
  constructor
  · unfold chooseDst
    rw [hp]
    dsimp only
    rw [hs]
    simp
  · intro hcontr
    exact hne (nodeModulesPath_inj_base hcontr)

/-- Witness for C3 in a recursive install (`root ≠ prefix`): the
incompatible flat occupant redirects the clone to the dependent's own
`node_modules`, a genuinely different path. -/
theorem c3_witness :
    chooseDst envC3w "/app/node_modules/c" "/app" "b" (some "^1.0.0") =
        some (nodeModulesPath "/app/node_modules/c" "b") ∧
      nodeModulesPath "/app/node_modules/c" "b" ≠ nodeModulesPath "/app" "b" :=
  c3_amended envC3w "/app/node_modules/c" "/app" "b" (some "^1.0.0") wpkgOld
    rfl rfl (by decide)

/-- C3 counterexample: a top-level install (prefix defaulted to the
package root `/app`) with an incompatible manifest at the flat path —
the clone goes to `/app/node_modules/b`, which IS the flat path
`prefix/node_modules/b`, refuting "that nested path is distinct from the
flat path (the flat path does not receive the clone)". -/
theorem c3_counterexample :
    envC3.readPkg (nodeModulesPath "/app" "b") = some wpkgOld ∧
      envC3.satisfies wpkgOld.version (some "^1.0.0") = false ∧
      Ev.clone "v1.0.0" "https://h/b.git" (nodeModulesPath "/app" "b") ∈
        (install envC3 2 "/app" none false).2 := by
  refine ⟨rfl, rfl, ?_⟩
  decide

/- ===================== Claim C2 (no satisfying host) ===================== -/

/-- C2 (amended): when no candidate host offers a tag satisfying the
range, the host loop finishes without error, clones nothing, and records
nothing — the source raises no `TagNotFoundError`; the install call then
simply moves on with the dependency silently left uninstalled (see the
counterexample for a whole run completing normally). -/
theorem c2_amended (env : Env) (version : Option String) (dst : String) :
    ∀ (urls : List String),
      (∀ url ∈ urls,
        matchTag env.satisfies ((env.listTags url).map (·.1)) version = none) →
      tryHosts env version dst urls = (Except.ok false, urls.map Ev.listTags)
  | [], _ => rfl
  | url :: rest, h => by
    have hu := h url (List.mem_cons_self _ _)
    simp only [tryHosts]
    rw [hu]
    dsimp only
    rw [c2_amended env version dst rest
      (fun u hu2 => h u (List.mem_cons_of_mem _ hu2))]
    rfl

/-- Witness for C2: the one candidate host of `envC2` offers only
`v0.5.0`, which fails `^1.0.0`; the loop ends cleanly after one
tag-listing call. -/
theorem c2_witness :
    tryHosts envC2 (some "^1.0.0") "/d" ["https://h/x.git"] =
      (Except.ok false, [Ev.listTags "https://h/x.git"]) :=
  c2_amended envC2 (some "^1.0.0") "/d" ["https://h/x.git"] (by decide)

/-- C2 counterexample: a full install whose only dependency (`x` at
`^1.0.0`, one candidate host offering only `v0.5.0`) has no satisfying
host completes normally — result `ok`, trace showing one tag listing
and no clone — refuting "the whole install call fails (with a
TagNotFoundError)". -/
theorem c2_counterexample :
    install envC2 1 "/app" none false =
      (Except.ok (), [Ev.enter "/app" none false, Ev.listTags "https://h/x.git"]) :=
  rfl

/- ===================== Claim C10 (verify decides recording) ===================== -/

/-- Outcome and trace of the host loop do not depend on the boolean the
clone operation returns: the source overwrites `success` immediately. -/
theorem tryHosts_clone_irrelevant (env : Env)
    (c : String → String → String → Bool) (version : Option String) (dst : String) :
    ∀ (urls : List String),
      tryHosts { env with cloneRepo := c } version dst urls =
        tryHosts env version dst urls
  | [] => rfl
  | url :: rest => by
    have hrec := tryHosts_clone_irrelevant env c version dst rest
    simp only [tryHosts, verifyCall, hrec]

/-- C10: at a host whose tag listing yields a matching tag, the clone's
returned boolean is discarded (any clone implementation gives the same
outcome and trace), a verification returning `true` records the target
path and stops, a verification returning `false` leaves the
already-cloned path unrecorded and moves on to the next candidate host,
and a dependency's path is recorded as newly installed exactly when its
host loop ends with a successful verification. -/
theorem c10_record_iff_verified (env : Env) (version : Option String)
    (dst url : String) (rest : List String) (tag : String) (ti : TagInfo)
    (hm : matchTag env.satisfies ((env.listTags url).map (·.1)) version = some tag)
    (hl : assocGet (env.listTags url) tag = some ti) :
    (∀ c, tryHosts { env with cloneRepo := c } version dst (url :: rest) =
      tryHosts env version dst (url :: rest)) ∧
    (verifyCall env ti tag dst = Except.ok true →
      tryHosts env version dst (url :: rest) =
        (Except.ok true,
          [Ev.listTags url, Ev.clone tag url dst, verifyEv ti tag dst])) ∧
    (verifyCall env ti tag dst = Except.ok false →
      tryHosts env version dst (url :: rest) =
        ((tryHosts env version dst rest).1,
          Ev.listTags url :: Ev.clone tag url dst :: verifyEv ti tag dst ::
            (tryHosts env version dst rest).2)) ∧
    (∀ (root preV : String) (remotes : Option (List (String × RemoteVal)))
      (name src : String) (exp : Expanded) (dst2 : String),
      expandSrc preV remotes name src = Except.ok exp →
      chooseDst env root preV name exp.version = some dst2 →
      exp.git ≠ [] →
      ((processDep env root preV remotes name src).1 = Except.ok (some dst2) ↔
        (tryHosts env exp.version dst2 exp.git).1 = Except.ok true)) := by
  refine ⟨fun c => tryHosts_clone_irrelevant env c version dst (url :: rest),
    ?_, ?_, ?_⟩
  · intro hv
    simp only [tryHosts]
    rw [hm]
    dsimp only
    rw [hl]
    dsimp only
    rw [hv]
  · intro hv
    simp only [tryHosts]
    rw [hm]
    dsimp only
    rw [hl]
    dsimp only
    rw [hv]
  · intro root preV remotes name src exp dst2 he hc hg
    unfold processDep
    rw [he]
    dsimp only
    rw [hc]
    dsimp only
    rw [if_neg hg]
    rcases htr : tryHosts env exp.version dst2 exp.git with ⟨r, evs⟩
    cases r with
    | error e => simp
    | ok b => cases b <;> simp

/-- Witness for C10: with a clone operation that reports failure and a
verification that succeeds, the path is still recorded (`ok true`) after
the clone and verify calls. -/
theorem c10_witness :
    tryHosts envC10 (some "^1.0.0") "/d" ["u1"] =
      (Except.ok true,
        [Ev.listTags "u1", Ev.clone "v1.0.0" "u1" "/d", verifyEv wti "v1.0.0" "/d"]) :=
  (c10_record_iff_verified envC10 (some "^1.0.0") "/d" "u1" [] "v1.0.0" wti
    rfl rfl).2.1 rfl

/- ===================== Claim C9 (recursion order and prefix) ===================== -/

/-- When every step succeeds, the sequential runner's trace is the
concatenation of the steps' traces in list order. -/
theorem runAll_trace_of_ok (f : String → Except GpkError Unit × List Ev) :
    ∀ (l : List String), (∀ p ∈ l, (f p).1 = Except.ok ()) →
      (runAll f l).2 = (l.map (fun p => (f p).2)).flatten
  | [], _ => rfl
  | p :: ps, h => by
    have hp := h p (List.mem_cons_self _ _)
    simp only [runAll]
    rw [show f p = ((f p).1, (f p).2) from (Prod.mk.eta).symm, hp]
    dsimp only
    rw [runAll_trace_of_ok f ps (fun q hq => h q (List.mem_cons_of_mem _ hq))]
    simp only [List.map_cons, List.flatten_cons]

/-- Every invocation of `install` opens its trace with its own `enter`
event carrying the destination and prefix argument it was called with. -/
theorem install_trace_head (env : Env) :
    ∀ (f : Nat) (p : String) (pre2 : Option String) (prod2 : Bool),
      ∃ t, (install env f p pre2 prod2).2 = Ev.enter p pre2 prod2 :: t
  | 0, _, _, _ => ⟨[], rfl⟩
  | f + 1, p, pre2, prod2 => by
    simp only [install]
    cases hr : env.readPkg p with
    | none => exact ⟨[], rfl⟩
    | some pkg =>
      dsimp only
      cases hd : pkg.dependencies with
      | none => exact ⟨[], rfl⟩
      | some deps =>
        dsimp only
        rcases hdl : depLoop env p (pre2.getD p) pkg.remotes
            (mergeDeps prod2 deps pkg.devDependencies) with ⟨r, evs⟩
        cases r with
        | error e => exact ⟨evs, rfl⟩
        | ok installed =>
          dsimp only
          rcases hra : runAll (fun q => install env f q (some (pre2.getD p)) false)
              installed with ⟨r2, evs2⟩
          cases r2 with
          | error e => exact ⟨evs ++ evs2, rfl⟩
          | ok u =>
            exact ⟨(evs ++ evs2) ++
                (if env.hasGyp p then [Ev.rebuild p] else []),
              by simp⟩

/-- C9: after a dependency loop producing the list `installed`, the
orchestrator runs `install` sequentially on exactly those paths in
recording order, passing the original (resolved) prefix — not the nested
path — to every recursive call; when all recursive calls succeed the
trace is their traces concatenated in that order, and each recursive
trace opens with an `enter` event naming the path and that original
prefix. -/
theorem c9_recursion (env : Env) (fuel : Nat) (dstArg : String)
    (prefixArg : Option String) (production : Bool) (pkg : Pkg)
    (deps : List (String × String)) (installed : List String) (evs : List Ev)
    (hpkg : env.readPkg dstArg = some pkg)
    (hdeps : pkg.dependencies = some deps)
    (hloop : depLoop env dstArg (prefixArg.getD dstArg) pkg.remotes
        (mergeDeps production deps pkg.devDependencies) = (Except.ok installed, evs)) :
    (install env (fuel + 1) dstArg prefixArg production =
      match runAll (fun p => install env fuel p (some (prefixArg.getD dstArg)) false)
          installed with
      | (Except.error e, evs2) =>
        (Except.error e, Ev.enter dstArg prefixArg production :: (evs ++ evs2))
      | (Except.ok _, evs2) =>
        (Except.ok (), Ev.enter dstArg prefixArg production :: (evs ++ evs2) ++
          (if env.hasGyp dstArg then [Ev.rebuild dstArg] else []))) ∧
    ((∀ p ∈ installed,
        (install env fuel p (some (prefixArg.getD dstArg)) false).1 = Except.ok ()) →
      (runAll (fun p => install env fuel p (some (prefixArg.getD dstArg)) false)
          installed).2 =
        (installed.map
          (fun p => (install env fuel p (some (prefixArg.getD dstArg)) false).2)).flatten) ∧
    (∀ (f : Nat) (p : String) (pre2 : Option String) (prod2 : Bool),
      ∃ t, (install env f p pre2 prod2).2 = Ev.enter p pre2 prod2 :: t) := by
  refine ⟨?_, runAll_trace_of_ok _ installed, install_trace_head env⟩
  simp only [install]
  rw [hpkg]
  dsimp only
  rw [hdeps]
  dsimp only
  rw [hloop]

/-- Witness for C9 at a leaf package with an empty dependency map. -/
theorem c9_witness :
    ∃ t, (install envC9 1 "/app" (some "/pre") true).2 =
      Ev.enter "/app" (some "/pre") true :: t :=
  (c9_recursion envC9 0 "/app" none false wpkgC9 [] [] [] rfl rfl rfl).2.2
    1 "/app" (some "/pre") true

end Gpk
